import Mathlib

/-
Verification of the log-normal two-percentile calculator (src/app.py).

The numeric core of the app is the inline computation block at lines 71-92
of src/app.py: given two selected percentile labels with probabilities
p1, p2 and values x1, x2, it checks positivity, computes
  z_i  = Φ⁻¹(p_i)                     (scipy stats.norm.ppf)
  σ    = (ln x2 − ln x1) / (z2 − z1)
  μ    = ln x1 − σ·z1
  x_f  = exp(μ + σ·Φ⁻¹(p_f))          (p_f = probability of the missing label)
and displays μ, σ, x_f together with the three (label, value) pairs in the
fixed dictionary order Típico (50 %), Serio (80 %), Extremo (95 %).

The standard-normal quantile function Φ⁻¹ is supplied by scipy; we model it
as a parameter `z : ℝ → ℝ` and state theorems under the mathematical facts
the claims rely on: Φ⁻¹ is strictly monotone on (0,1) and Φ⁻¹(1/2) = 0.
Real arithmetic is modelled exactly over ℝ.
-/

namespace LogNormalApp

/-- The three fixed percentile labels of the app
("Típico (50 %)", "Serio  (80 %)", "Extremo (95 %)" in the
`percentiles` dictionary, src/app.py lines 28-32). -/
inductive PercentileSpec where
  | p50
  | p80
  | p95
deriving DecidableEq

/-- The probability attached to each label (src/app.py lines 28-32). -/
def prob : PercentileSpec → ℝ
  | .p50 => 0.50
  | .p80 => 0.80
  | .p95 => 0.95

/-- The labels in the dictionary order of `percentiles` (src/app.py
lines 28-32); this order drives the summary table (lines 169-176). -/
def allSpecs : List PercentileSpec := [.p50, .p80, .p95]

/-- The missing label: the first key of `percentiles` not among the two
selected ones (src/app.py line 89,
`[e for e in percentiles.keys() if e not in seleccionados][0]`). -/
def faltante (s1 s2 : PercentileSpec) : PercentileSpec :=
  (allSpecs.filter (fun e => !(e == s1) && !(e == s2))).headD .p50

/-- The single error kind of the core: invalid input (the app shows
`st.error` and stops, src/app.py lines 77-79). -/
inductive AppError where
  | invalidInput
deriving DecidableEq

/-- Output of the computation block: fitted σ, μ and the derived missing
value `x_falt` (src/app.py lines 83-92). -/
structure Result where
  sigma : ℝ
  mu : ℝ
  x_falt : ℝ

/-- The σ of the underlying normal (src/app.py line 85,
`sigma = (np.log(x2) - np.log(x1)) / (z2 - z1)`), with the quantile
function `z` abstract and probabilities `p1`, `p2`. -/
noncomputable def sigmaOf (z : ℝ → ℝ) (p1 p2 x1 x2 : ℝ) : ℝ :=
  (Real.log x2 - Real.log x1) / (z p2 - z p1)

/-- The μ of the underlying normal (src/app.py line 86,
`mu = np.log(x1) - sigma * z1`). -/
noncomputable def muOf (z : ℝ → ℝ) (p1 p2 x1 x2 : ℝ) : ℝ :=
  Real.log x1 - sigmaOf z p1 p2 x1 x2 * z p1

/-- The inline computation block of src/app.py lines 77-92: reject
non-positive values (lines 77-79, `st.error` + `st.stop`), otherwise
compute σ, μ and the missing percentile value
`x_falt = np.exp(mu + sigma * z_falt)` (line 92). -/
noncomputable def appCompute (z : ℝ → ℝ) (s1 s2 : PercentileSpec)
    (x1 x2 : ℝ) : Except AppError Result :=
  if x1 ≤ 0 ∨ x2 ≤ 0 then .error .invalidInput
  else
    .ok ⟨sigmaOf z (prob s1) (prob s2) x1 x2,
         muOf z (prob s1) (prob s2) x1 x2,
         Real.exp (muOf z (prob s1) (prob s2) x1 x2 +
           sigmaOf z (prob s1) (prob s2) x1 x2 * z (prob (faltante s1 s2)))⟩

/-- An observation: a percentile label together with the value the user
entered for it. -/
structure Observation where
  spec : PercentileSpec
  value : ℝ

/-- Fitted parameters (μ, σ) of the underlying normal. -/
structure FittedParameters where
  mu : ℝ
  sigma : ℝ

/-- Modelled from the spec: the `fit` operation of §4.1 is not a named
function in src/app.py (the app inlines the same arithmetic at lines
83-86 and prevents duplicate labels upstream via the multiselect widget,
lines 49-58). Per the spec it fails with `InvalidInputError` if the two
specs are identical or either value is ≤ 0, and otherwise returns
σ = (ln x2 − ln x1)/(z2 − z1), μ = ln x1 − σ·z1. -/
noncomputable def fit (z : ℝ → ℝ) (o1 o2 : Observation) :
    Except AppError FittedParameters :=
  if o1.spec = o2.spec then .error .invalidInput
  else if o1.value ≤ 0 ∨ o2.value ≤ 0 then .error .invalidInput
  else
    .ok ⟨muOf z (prob o1.spec) (prob o2.spec) o1.value o2.value,
         sigmaOf z (prob o1.spec) (prob o2.spec) o1.value o2.value⟩

/-- Modelled from the spec: the `quantile` operation of §4.1 is not a named
function in src/app.py (line 92 inlines `exp(mu + sigma * z_falt)` for the
one probability it needs). Per the spec it fails with `InvalidInputError`
if p is not strictly between 0 and 1, else returns exp(μ + σ·Φ⁻¹(p)). -/
noncomputable def quantile (z : ℝ → ℝ) (params : FittedParameters)
    (p : ℝ) : Except AppError ℝ :=
  if p ≤ 0 ∨ 1 ≤ p then .error .invalidInput
  else .ok (Real.exp (params.mu + params.sigma * z p))

/-- Result of `resolve`: the fitted parameters, the advisory
inconsistent-fit flag (spec §7: set when σ ≤ 0), and the three
(spec, value) pairs. -/
structure ResolveResult where
  params : FittedParameters
  inconsistent : Bool
  triple : List (PercentileSpec × ℝ)

/-- The value displayed for label `s`: the entered value when `s` is one of
the two selected labels, else the derived `x_falt` (src/app.py lines
147-152 and the summary table lines 169-176). -/
noncomputable def valueFor (o1 o2 : Observation) (xf : ℝ)
    (s : PercentileSpec) : ℝ :=
  if s = o1.spec then o1.value
  else if s = o2.spec then o2.value
  else xf

/-- Modelled from the spec: the `resolve` operation of §4.1 is not a named
function in src/app.py; the app performs the same orchestration inline
(fit at lines 83-86, missing value at lines 89-92, fixed-order display at
lines 169-176). Per the spec §7 it also returns the non-fatal
`InconsistentFitWarning` flag (σ ≤ 0) alongside the result rather than
suppressing it. -/
noncomputable def resolve (z : ℝ → ℝ) (o1 o2 : Observation) :
    Except AppError ResolveResult :=
  match fit z o1 o2 with
  | .error e => .error e
  | .ok params =>
    match quantile z params (prob (faltante o1.spec o2.spec)) with
    | .error e => .error e
    | .ok xf =>
      .ok ⟨params, decide (params.sigma ≤ 0),
           allSpecs.map (fun s => (s, valueFor o1 o2 xf s))⟩

/- ### Basic facts about the embedding -/

theorem prob_mem_Ioo (s : PercentileSpec) : prob s ∈ Set.Ioo (0 : ℝ) 1 := by
  cases s <;> constructor <;> norm_num [prob]

theorem prob_injective : Function.Injective prob := by
  intro a b h
  cases a <;> cases b <;> first | rfl | (exfalso; norm_num [prob] at h)

theorem zNe {z : ℝ → ℝ} (hmono : StrictMonoOn z (Set.Ioo (0 : ℝ) 1))
    {s1 s2 : PercentileSpec} (hs : s1 ≠ s2) :
    z (prob s1) ≠ z (prob s2) := by
  intro h
  exact hs (prob_injective
    (hmono.injOn (prob_mem_Ioo s1) (prob_mem_Ioo s2) h))

theorem faltante_comm (s1 s2 : PercentileSpec) :
    faltante s1 s2 = faltante s2 s1 := by
  cases s1 <;> cases s2 <;> rfl

/-- A concrete strictly monotone function with value 0 at 1/2, used only
to instantiate the abstract quantile-function parameter in witness
theorems (the true Φ⁻¹ also has both properties). -/
noncomputable def zLin : ℝ → ℝ := fun p => p - 1/2

theorem zLin_strictMonoOn : StrictMonoOn zLin (Set.Ioo (0 : ℝ) 1) := by
  intro a _ b _ hab
  exact sub_lt_sub_right hab _

theorem zLin_half : zLin (1/2) = 0 := by
  unfold zLin
  norm_num

/- ### Inversion and evaluation lemmas -/

theorem appCompute_ok_inv {z : ℝ → ℝ} {s1 s2 : PercentileSpec}
    {x1 x2 : ℝ} {r : Result}
    (hr : appCompute z s1 s2 x1 x2 = .ok r) :
    0 < x1 ∧ 0 < x2 ∧
    r = ⟨sigmaOf z (prob s1) (prob s2) x1 x2,
         muOf z (prob s1) (prob s2) x1 x2,
         Real.exp (muOf z (prob s1) (prob s2) x1 x2 +
           sigmaOf z (prob s1) (prob s2) x1 x2 *
             z (prob (faltante s1 s2)))⟩ := by
  unfold appCompute at hr
  split at hr
  · cases hr
  · rename_i h
    push_neg at h
    injection hr with h'
    exact ⟨h.1, h.2, h'.symm⟩

theorem fit_ok_inv {z : ℝ → ℝ} {o1 o2 : Observation}
    {params : FittedParameters} (h : fit z o1 o2 = .ok params) :
    o1.spec ≠ o2.spec ∧ 0 < o1.value ∧ 0 < o2.value ∧
    params = ⟨muOf z (prob o1.spec) (prob o2.spec) o1.value o2.value,
              sigmaOf z (prob o1.spec) (prob o2.spec) o1.value o2.value⟩ := by
  unfold fit at h
  split at h
  · cases h
  · split at h
    · cases h
    · rename_i hne hval
      push_neg at hval
      injection h with h'
      exact ⟨hne, hval.1, hval.2, h'.symm⟩

theorem fit_eq_ok (z : ℝ → ℝ) (o1 o2 : Observation)
    (hs : o1.spec ≠ o2.spec) (h1 : 0 < o1.value) (h2 : 0 < o2.value) :
    fit z o1 o2 =
      .ok ⟨muOf z (prob o1.spec) (prob o2.spec) o1.value o2.value,
           sigmaOf z (prob o1.spec) (prob o2.spec) o1.value o2.value⟩ := by
  unfold fit
  rw [if_neg hs, if_neg (by push_neg; exact ⟨h1, h2⟩)]

theorem quantile_eq_ok (z : ℝ → ℝ) (params : FittedParameters) (p : ℝ)
    (hp : 0 < p) (hp1 : p < 1) :
    quantile z params p =
      .ok (Real.exp (params.mu + params.sigma * z p)) := by
  unfold quantile
  rw [if_neg (by push_neg; exact ⟨hp, hp1⟩)]

theorem resolve_eq_ok (z : ℝ → ℝ) (o1 o2 : Observation)
    (params : FittedParameters) (xf : ℝ)
    (hfit : fit z o1 o2 = .ok params)
    (hq : quantile z params (prob (faltante o1.spec o2.spec)) = .ok xf) :
    resolve z o1 o2 =
      .ok ⟨params, decide (params.sigma ≤ 0),
           allSpecs.map (fun s => (s, valueFor o1 o2 xf s))⟩ := by
  unfold resolve
  simp only [hfit]
  simp only [hq]

theorem resolve_ok_inv {z : ℝ → ℝ} {o1 o2 : Observation}
    {r : ResolveResult} (hr : resolve z o1 o2 = .ok r) :
    ∃ params xf,
      fit z o1 o2 = .ok params ∧
      quantile z params (prob (faltante o1.spec o2.spec)) = .ok xf ∧
      r = ⟨params, decide (params.sigma ≤ 0),
           allSpecs.map (fun s => (s, valueFor o1 o2 xf s))⟩ := by
  unfold resolve at hr
  split at hr
  · cases hr
  · rename_i params heq
    split at hr
    · cases hr
    · rename_i xf heq2
      injection hr with h'
      exact ⟨params, xf, heq, heq2, h'.symm⟩

theorem valueFor_pos (o1 o2 : Observation) (xf : ℝ)
    (h1 : 0 < o1.value) (h2 : 0 < o2.value) (hxf : 0 < xf)
    (s : PercentileSpec) : 0 < valueFor o1 o2 xf s := by
  unfold valueFor
  split_ifs <;> assumption

theorem valueFor_comm (o1 o2 : Observation) (xf : ℝ)
    (hs : o1.spec ≠ o2.spec) (s : PercentileSpec) :
    valueFor o2 o1 xf s = valueFor o1 o2 xf s := by
  unfold valueFor
  by_cases ha : s = o1.spec
  · by_cases hb : s = o2.spec
    · exact absurd (ha.symm.trans hb) hs
    · rw [if_neg hb, if_pos ha, if_pos ha]
  · by_cases hb : s = o2.spec
    · rw [if_pos hb, if_neg ha, if_pos hb]
    · rw [if_neg hb, if_neg ha, if_neg ha, if_neg hb]

/- ### Claim theorems -/

/-- Claim C1: for strictly positive values the computation block succeeds
and returns exactly σ = (ln x2 − ln x1)/(z2 − z1), μ = ln x1 − σ·z1, and
the missing percentile's value exp(μ + σ·Φ⁻¹(p_missing)), where
z_i = Φ⁻¹(p_i). -/
theorem appCompute_formulas (z : ℝ → ℝ) (s1 s2 : PercentileSpec)
    (x1 x2 : ℝ) (h1 : 0 < x1) (h2 : 0 < x2) :
    ∃ r, appCompute z s1 s2 x1 x2 = .ok r ∧
      r.sigma = (Real.log x2 - Real.log x1) / (z (prob s2) - z (prob s1)) ∧
      r.mu = Real.log x1 - r.sigma * z (prob s1) ∧
      r.x_falt = Real.exp (r.mu + r.sigma * z (prob (faltante s1 s2))) := by
  unfold appCompute
  rw [if_neg (by push_neg; exact ⟨h1, h2⟩)]
  exact ⟨_, rfl, rfl, rfl, rfl⟩

/-- Witness for C1 at s1 = p50, s2 = p80, x1 = 1, x2 = 2. -/
theorem appCompute_formulas_witness :
    (0:ℝ) < 1 ∧ (0:ℝ) < 2 ∧
    ∃ r, appCompute zLin .p50 .p80 1 2 = .ok r ∧
      r.sigma = (Real.log 2 - Real.log 1) /
        (zLin (prob .p80) - zLin (prob .p50)) ∧
      r.mu = Real.log 1 - r.sigma * zLin (prob .p50) ∧
      r.x_falt = Real.exp (r.mu + r.sigma * zLin (prob (faltante .p50 .p80))) :=
  ⟨by norm_num, by norm_num,
   appCompute_formulas zLin .p50 .p80 1 2 (by norm_num) (by norm_num)⟩

/-- Claim C3: with strictly monotone Φ⁻¹, whenever p1 < p2 and
0 < x1 < x2, the σ returned by fit is strictly positive. -/
theorem fit_sigma_pos (z : ℝ → ℝ)
    (hmono : StrictMonoOn z (Set.Ioo (0:ℝ) 1))
    (o1 o2 : Observation) (params : FittedParameters)
    (hp : prob o1.spec < prob o2.spec) (h1 : 0 < o1.value)
    (hx : o1.value < o2.value) (hfit : fit z o1 o2 = .ok params) :
    0 < params.sigma := by
  obtain ⟨-, -, -, hparams⟩ := fit_ok_inv hfit
  subst hparams
  show 0 < sigmaOf z (prob o1.spec) (prob o2.spec) o1.value o2.value
  unfold sigmaOf
  apply div_pos
  · exact sub_pos.mpr (Real.log_lt_log h1 hx)
  · exact sub_pos.mpr (hmono (prob_mem_Ioo _) (prob_mem_Ioo _) hp)

/-- Witness for C3 at obs1 = (p50, 1), obs2 = (p80, 2). -/
theorem fit_sigma_pos_witness :
    StrictMonoOn zLin (Set.Ioo (0:ℝ) 1) ∧
    prob PercentileSpec.p50 < prob PercentileSpec.p80 ∧
    (0:ℝ) < 1 ∧ (1:ℝ) < 2 ∧
    fit zLin ⟨.p50, 1⟩ ⟨.p80, 2⟩ =
      .ok ⟨muOf zLin (prob .p50) (prob .p80) 1 2,
           sigmaOf zLin (prob .p50) (prob .p80) 1 2⟩ ∧
    0 < sigmaOf zLin (prob .p50) (prob .p80) 1 2 := by
  have hfit : fit zLin ⟨PercentileSpec.p50, 1⟩ ⟨PercentileSpec.p80, 2⟩ =
      .ok ⟨muOf zLin (prob .p50) (prob .p80) 1 2,
           sigmaOf zLin (prob .p50) (prob .p80) 1 2⟩ :=
    fit_eq_ok zLin _ _ (by decide) (by norm_num) (by norm_num)
  refine ⟨zLin_strictMonoOn, by norm_num [prob], by norm_num, by norm_num,
    hfit, ?_⟩
  exact fit_sigma_pos zLin zLin_strictMonoOn ⟨.p50, 1⟩ ⟨.p80, 2⟩ _
    (by norm_num [prob]) (by norm_num) (by norm_num) hfit

/-- Claim C4: a non-positive value makes the computation fail with the
invalid input error; no (σ, μ, x_falt) result is produced on that
invocation. -/
theorem appCompute_invalid (z : ℝ → ℝ) (s1 s2 : PercentileSpec)
    (x1 x2 : ℝ) (o1 o2 : Observation) (h : x1 ≤ 0 ∨ x2 ≤ 0)
    (ho : o1.value ≤ 0 ∨ o2.value ≤ 0) :
    appCompute z s1 s2 x1 x2 = .error .invalidInput ∧
    fit z o1 o2 = .error .invalidInput := by
  constructor
  · unfold appCompute
    rw [if_pos h]
  · unfold fit
    by_cases hspec : o1.spec = o2.spec
    · rw [if_pos hspec]
    · rw [if_neg hspec, if_pos ho]

/-- Witness for C4 at x1 = 0. -/
theorem appCompute_invalid_witness :
    ((0:ℝ) ≤ 0 ∨ (5:ℝ) ≤ 0) ∧
    (appCompute zLin .p50 .p80 0 5 = .error .invalidInput ∧
     fit zLin ⟨.p50, 0⟩ ⟨.p80, 5⟩ = .error .invalidInput) :=
  ⟨Or.inl le_rfl,
   appCompute_invalid zLin .p50 .p80 0 5 ⟨.p50, 0⟩ ⟨.p80, 5⟩
     (Or.inl le_rfl) (Or.inl le_rfl)⟩

/-- Claim C5: two observations referencing the same PercentileSpec make
fit fail with the invalid input error instead of dividing by zero. -/
theorem fit_duplicate_spec (z : ℝ → ℝ) (s : PercentileSpec)
    (x1 x2 : ℝ) :
    fit z ⟨s, x1⟩ ⟨s, x2⟩ = .error .invalidInput := by
  unfold fit
  rw [if_pos rfl]

/-- Claim C6: quantile fails with the invalid input error for every p not
strictly between 0 and 1. -/
theorem quantile_out_of_range (z : ℝ → ℝ) (params : FittedParameters)
    (p : ℝ) (h : p ≤ 0 ∨ 1 ≤ p) :
    quantile z params p = .error .invalidInput := by
  unfold quantile
  rw [if_pos h]

/-- Witness for C6 at the boundaries p = 0 and p = 1. -/
theorem quantile_out_of_range_witness :
    ((0:ℝ) ≤ 0 ∨ (1:ℝ) ≤ (0:ℝ)) ∧
    quantile zLin ⟨0, 1⟩ 0 = .error .invalidInput ∧
    ((1:ℝ) ≤ 0 ∨ (1:ℝ) ≤ (1:ℝ)) ∧
    quantile zLin ⟨0, 1⟩ 1 = .error .invalidInput :=
  ⟨Or.inl le_rfl, quantile_out_of_range zLin ⟨0, 1⟩ 0 (Or.inl le_rfl),
   Or.inr le_rfl, quantile_out_of_range zLin ⟨0, 1⟩ 1 (Or.inr le_rfl)⟩

/-- Claim C7: since Φ⁻¹(1/2) = 0, quantile at p = 1/2 returns exp(μ)
exactly, and when p50 is the missing percentile the derived value of the
computation block equals exp(μ). -/
theorem quantile_half (z : ℝ → ℝ) (hz : z (1/2) = 0)
    (params : FittedParameters) (s1 s2 : PercentileSpec) (x1 x2 : ℝ)
    (rc : Result) (hfalt : faltante s1 s2 = .p50)
    (hrc : appCompute z s1 s2 x1 x2 = .ok rc) :
    quantile z params (1/2) = .ok (Real.exp params.mu) ∧
    rc.x_falt = Real.exp rc.mu := by
  constructor
  · rw [quantile_eq_ok z params (1/2) (by norm_num) (by norm_num), hz,
      mul_zero, add_zero]
  · obtain ⟨-, -, hrc'⟩ := appCompute_ok_inv hrc
    subst hrc'
    show Real.exp (muOf z (prob s1) (prob s2) x1 x2 +
        sigmaOf z (prob s1) (prob s2) x1 x2 * z (prob (faltante s1 s2))) =
      Real.exp (muOf z (prob s1) (prob s2) x1 x2)
    have h50 : prob PercentileSpec.p50 = 1/2 := by norm_num [prob]
    rw [hfalt, h50, hz, mul_zero, add_zero]

/-- Witness for C7 with the selected pair (p80, p95), so that p50 is the
missing percentile, at x1 = x2 = 1. -/
theorem quantile_half_witness :
    zLin (1/2) = 0 ∧
    faltante PercentileSpec.p80 PercentileSpec.p95 = PercentileSpec.p50 ∧
    appCompute zLin .p80 .p95 1 1 =
      .ok ⟨sigmaOf zLin (prob .p80) (prob .p95) 1 1,
           muOf zLin (prob .p80) (prob .p95) 1 1,
           Real.exp (muOf zLin (prob .p80) (prob .p95) 1 1 +
             sigmaOf zLin (prob .p80) (prob .p95) 1 1 *
               zLin (prob (faltante .p80 .p95)))⟩ ∧
    quantile zLin (⟨3, 2⟩ : FittedParameters) (1/2) = .ok (Real.exp (3:ℝ)) ∧
    Real.exp (muOf zLin (prob .p80) (prob .p95) 1 1 +
      sigmaOf zLin (prob .p80) (prob .p95) 1 1 *
        zLin (prob (faltante .p80 .p95))) =
      Real.exp (muOf zLin (prob .p80) (prob .p95) 1 1) := by
  have hz : zLin (1/2) = 0 := zLin_half
  have hfalt : faltante PercentileSpec.p80 PercentileSpec.p95 =
      PercentileSpec.p50 := rfl
  have hrc : appCompute zLin .p80 .p95 1 1 =
      .ok ⟨sigmaOf zLin (prob .p80) (prob .p95) 1 1,
           muOf zLin (prob .p80) (prob .p95) 1 1,
           Real.exp (muOf zLin (prob .p80) (prob .p95) 1 1 +
             sigmaOf zLin (prob .p80) (prob .p95) 1 1 *
               zLin (prob (faltante .p80 .p95)))⟩ := by
    unfold appCompute
    rw [if_neg (by norm_num)]
  have hmain := quantile_half zLin hz ⟨3, 2⟩ .p80 .p95 1 1 _ hfalt hrc
  exact ⟨hz, hfalt, hrc, hmain.1, hmain.2⟩

/-- Claim C9: resolve is deterministic — two invocations with the same
two observations return the same result; the embedding of the
computation reads nothing but its two observation arguments. -/
theorem resolve_deterministic (z : ℝ → ℝ) (o1 o2 o1' o2' : Observation)
    (h1 : o1 = o1') (h2 : o2 = o2') :
    resolve z o1 o2 = resolve z o1' o2' := by
  rw [h1, h2]

/-- Claim C2: whenever the computed σ is negative the result is still
returned (resolve answers ok, not error) with the inconsistent-fit flag
set true; in particular for obs1 = (p50, 200), obs2 = (p95, 100) the fit
succeeds, σ is negative and the flag is true. -/
theorem resolve_inconsistent_flag (z : ℝ → ℝ)
    (hmono : StrictMonoOn z (Set.Ioo (0:ℝ) 1)) (hz : z (1/2) = 0) :
    (∀ o1 o2 r, resolve z o1 o2 = .ok r → r.params.sigma < 0 →
      r.inconsistent = true) ∧
    ∃ r, resolve z ⟨.p50, 200⟩ ⟨.p95, 100⟩ = .ok r ∧
      r.params.sigma < 0 ∧ r.inconsistent = true := by
  constructor
  · intro o1 o2 r hr hneg
    obtain ⟨params, xf, -, -, hr'⟩ := resolve_ok_inv hr
    subst hr'
    exact decide_eq_true hneg.le
  · have hσneg : sigmaOf z (prob PercentileSpec.p50)
        (prob PercentileSpec.p95) 200 100 < 0 := by
      unfold sigmaOf
      apply div_neg_of_neg_of_pos
      · rw [sub_neg]
        exact Real.log_lt_log (by norm_num) (by norm_num)
      · have h50 : prob PercentileSpec.p50 = 1/2 := by norm_num [prob]
        have h2 : z (1/2) < z (prob PercentileSpec.p95) :=
          hmono ⟨by norm_num, by norm_num⟩ (prob_mem_Ioo _)
            (by norm_num [prob])
        rw [h50, hz, sub_zero, ← hz]
        exact h2
    have hfit : fit z ⟨PercentileSpec.p50, 200⟩ ⟨PercentileSpec.p95, 100⟩ =
        .ok ⟨muOf z (prob .p50) (prob .p95) 200 100,
             sigmaOf z (prob .p50) (prob .p95) 200 100⟩ :=
      fit_eq_ok z _ _ (by decide) (by norm_num) (by norm_num)
    have hq : quantile z
        (⟨muOf z (prob PercentileSpec.p50) (prob PercentileSpec.p95) 200 100,
          sigmaOf z (prob PercentileSpec.p50) (prob PercentileSpec.p95)
            200 100⟩ : FittedParameters)
        (prob (faltante PercentileSpec.p50 PercentileSpec.p95)) =
        .ok (Real.exp (muOf z (prob PercentileSpec.p50)
            (prob PercentileSpec.p95) 200 100 +
          sigmaOf z (prob PercentileSpec.p50) (prob PercentileSpec.p95)
              200 100 *
            z (prob (faltante PercentileSpec.p50 PercentileSpec.p95)))) :=
      quantile_eq_ok z _ _ (by show (0:ℝ) < (0.80:ℝ); norm_num)
        (by show (0.80:ℝ) < (1:ℝ); norm_num)
    have hres := resolve_eq_ok z ⟨PercentileSpec.p50, 200⟩
      ⟨PercentileSpec.p95, 100⟩ _ _ hfit hq
    refine ⟨_, hres, ?_, ?_⟩
    · exact hσneg
    · exact decide_eq_true hσneg.le

/-- Witness for C2: the hypotheses on the quantile function hold for a
concrete strictly monotone function vanishing at 1/2. -/
theorem resolve_inconsistent_flag_witness :
    StrictMonoOn zLin (Set.Ioo (0:ℝ) 1) ∧ zLin (1/2) = 0 ∧
    ((∀ o1 o2 r, resolve zLin o1 o2 = .ok r → r.params.sigma < 0 →
        r.inconsistent = true) ∧
     ∃ r, resolve zLin ⟨.p50, 200⟩ ⟨.p95, 100⟩ = .ok r ∧
       r.params.sigma < 0 ∧ r.inconsistent = true) :=
  ⟨zLin_strictMonoOn, zLin_half,
   resolve_inconsistent_flag zLin zLin_strictMonoOn zLin_half⟩

/-- Witness for C9 at obs1 = (p50, 100), obs2 = (p80, 150). -/
theorem resolve_deterministic_witness :
    (⟨PercentileSpec.p50, 100⟩ : Observation) = ⟨.p50, 100⟩ ∧
    resolve zLin ⟨.p50, 100⟩ ⟨.p80, 150⟩ =
      resolve zLin ⟨.p50, 100⟩ ⟨.p80, 150⟩ :=
  ⟨rfl, resolve_deterministic zLin ⟨.p50, 100⟩ ⟨.p80, 150⟩
    ⟨.p50, 100⟩ ⟨.p80, 150⟩ rfl rfl⟩

/-- Claim C8: for valid inputs, resolve returns the three (spec, value)
pairs ordered by increasing probability (50 %, 80 %, 95 %), and the triple
is the same regardless of the order of the two input observations. -/
theorem resolve_ordered_triple (z : ℝ → ℝ)
    (hmono : StrictMonoOn z (Set.Ioo (0:ℝ) 1))
    (o1 o2 : Observation) (hs : o1.spec ≠ o2.spec)
    (h1 : 0 < o1.value) (h2 : 0 < o2.value) :
    ∃ r r', resolve z o1 o2 = .ok r ∧ resolve z o2 o1 = .ok r' ∧
      (r.triple.map fun q => prob q.1) = [0.50, 0.80, 0.95] ∧
      List.Pairwise (· < ·) (r.triple.map fun q => prob q.1) ∧
      r'.triple = r.triple := by
  have hzne : z (prob o1.spec) ≠ z (prob o2.spec) := zNe hmono hs
  have hfit1 := fit_eq_ok z o1 o2 hs h1 h2
  have hfit2 := fit_eq_ok z o2 o1 (Ne.symm hs) h2 h1
  have hq1 := quantile_eq_ok z
    ⟨muOf z (prob o1.spec) (prob o2.spec) o1.value o2.value,
     sigmaOf z (prob o1.spec) (prob o2.spec) o1.value o2.value⟩
    (prob (faltante o1.spec o2.spec))
    (prob_mem_Ioo _).1 (prob_mem_Ioo _).2
  have hq2 := quantile_eq_ok z
    ⟨muOf z (prob o2.spec) (prob o1.spec) o2.value o1.value,
     sigmaOf z (prob o2.spec) (prob o1.spec) o2.value o1.value⟩
    (prob (faltante o2.spec o1.spec))
    (prob_mem_Ioo _).1 (prob_mem_Ioo _).2
  have hres1 := resolve_eq_ok z o1 o2 _ _ hfit1 hq1
  have hres2 := resolve_eq_ok z o2 o1 _ _ hfit2 hq2
  have hσ : sigmaOf z (prob o2.spec) (prob o1.spec) o2.value o1.value =
      sigmaOf z (prob o1.spec) (prob o2.spec) o1.value o2.value := by
    unfold sigmaOf
    rw [← neg_sub (Real.log o2.value) (Real.log o1.value),
        ← neg_sub (z (prob o2.spec)) (z (prob o1.spec)), neg_div_neg_eq]
  have hd : z (prob o2.spec) - z (prob o1.spec) ≠ 0 :=
    sub_ne_zero.mpr (Ne.symm hzne)
  have hμ : muOf z (prob o2.spec) (prob o1.spec) o2.value o1.value =
      muOf z (prob o1.spec) (prob o2.spec) o1.value o2.value := by
    unfold muOf
    rw [hσ]
    unfold sigmaOf
    field_simp
    ring
  have hxf : Real.exp (muOf z (prob o2.spec) (prob o1.spec)
        o2.value o1.value +
      sigmaOf z (prob o2.spec) (prob o1.spec) o2.value o1.value *
        z (prob (faltante o2.spec o1.spec))) =
      Real.exp (muOf z (prob o1.spec) (prob o2.spec) o1.value o2.value +
        sigmaOf z (prob o1.spec) (prob o2.spec) o1.value o2.value *
          z (prob (faltante o1.spec o2.spec))) := by
    rw [hσ, hμ, faltante_comm]
  refine ⟨_, _, hres1, hres2, rfl, ?_, ?_⟩
  · norm_num [allSpecs, List.pairwise_cons, prob]
  · dsimp only
    rw [hxf]
    exact List.map_congr_left (fun s _ =>
      congrArg (Prod.mk s) (valueFor_comm o1 o2 _ hs s))

/-- Witness for C8 with the observations given in decreasing-probability
order: obs1 = (p80, 2), obs2 = (p50, 1). -/
theorem resolve_ordered_triple_witness :
    StrictMonoOn zLin (Set.Ioo (0:ℝ) 1) ∧
    PercentileSpec.p80 ≠ PercentileSpec.p50 ∧
    (0:ℝ) < 2 ∧ (0:ℝ) < 1 ∧
    ∃ r r', resolve zLin ⟨.p80, 2⟩ ⟨.p50, 1⟩ = .ok r ∧
      resolve zLin ⟨.p50, 1⟩ ⟨.p80, 2⟩ = .ok r' ∧
      (r.triple.map fun q => prob q.1) = [0.50, 0.80, 0.95] ∧
      List.Pairwise (· < ·) (r.triple.map fun q => prob q.1) ∧
      r'.triple = r.triple :=
  ⟨zLin_strictMonoOn, by decide, by norm_num, by norm_num,
   resolve_ordered_triple zLin zLin_strictMonoOn ⟨.p80, 2⟩ ⟨.p50, 1⟩
     (by decide) (by norm_num) (by norm_num)⟩

/-- Claim C10: for strictly positive input values the derived missing
value is strictly positive (it is an exponential), and the whole resolved
triple consists of strictly positive values; no sign condition on σ is
assumed, so this holds even for an inconsistent fit. -/
theorem resolve_all_positive (z : ℝ → ℝ) (o1 o2 : Observation)
    (hs : o1.spec ≠ o2.spec) (h1 : 0 < o1.value) (h2 : 0 < o2.value) :
    (∀ rc, appCompute z o1.spec o2.spec o1.value o2.value = .ok rc →
      0 < rc.x_falt) ∧
    ∃ r, resolve z o1 o2 = .ok r ∧ ∀ q ∈ r.triple, 0 < q.2 := by
  constructor
  · intro rc hrc
    obtain ⟨-, -, hrc'⟩ := appCompute_ok_inv hrc
    subst hrc'
    exact Real.exp_pos _
  · have hfit := fit_eq_ok z o1 o2 hs h1 h2
    have hq := quantile_eq_ok z
      ⟨muOf z (prob o1.spec) (prob o2.spec) o1.value o2.value,
       sigmaOf z (prob o1.spec) (prob o2.spec) o1.value o2.value⟩
      (prob (faltante o1.spec o2.spec))
      (prob_mem_Ioo _).1 (prob_mem_Ioo _).2
    have hres := resolve_eq_ok z o1 o2 _ _ hfit hq
    refine ⟨_, hres, ?_⟩
    intro q hq'
    simp only [allSpecs, List.map_cons, List.map_nil, List.mem_cons,
      List.not_mem_nil, or_false] at hq'
    rcases hq' with h | h | h <;> subst h <;>
      exact valueFor_pos o1 o2 _ h1 h2 (Real.exp_pos _) _

/-- Witness for C10 at the inconsistent pair obs1 = (p50, 200),
obs2 = (p95, 100) (σ is negative there). -/
theorem resolve_all_positive_witness :
    PercentileSpec.p50 ≠ PercentileSpec.p95 ∧
    (0:ℝ) < 200 ∧ (0:ℝ) < 100 ∧
    ((∀ rc, appCompute zLin PercentileSpec.p50 PercentileSpec.p95
        200 100 = .ok rc → 0 < rc.x_falt) ∧
     ∃ r, resolve zLin ⟨.p50, 200⟩ ⟨.p95, 100⟩ = .ok r ∧
       ∀ q ∈ r.triple, 0 < q.2) :=
  ⟨by decide, by norm_num, by norm_num,
   resolve_all_positive zLin ⟨.p50, 200⟩ ⟨.p95, 100⟩
     (by decide) (by norm_num) (by norm_num)⟩

end LogNormalApp
